import Mathlib

/-!
Verification development for the betrace repository's trace-condition DSL
tooling:

* `convert_condition` — shallow embedding of the legacy-to-current condition
  transpiler in `src/backend/scripts/convert-yaml-dsl.py` (a priority-ordered
  cascade of anchored textual recognizers, each mirroring one `re.match`
  pattern of the source).
* `convert_yaml_file` — embedding of the batch converter from the same file,
  operating on the parsed list of rule records (file I/O and the header
  comment of the output file are outside the model).
* A lexer / parser / `ParseError` model for the current dialect, reconstructed
  from the spec and from the error sites of `src/backend/refactor-parser.py`
  (the parser's own Java source is not part of `src/`).

Modelling conventions: strings are handled as `List Char`; the Python regex
class `\s` is modelled by the ASCII whitespace characters; `re.match`'s
anchored prefix semantics is modelled by recognizers that consume a prefix of
the input and return the unconsumed remainder.
-/

/-- Characters matched by the Python regex class `\s` (ASCII range). -/
def isSpaceCh (c : Char) : Bool :=
  c = ' ' || c = '\t' || c = '\n' || c = '\r' || c = Char.ofNat 11 || c = Char.ofNat 12

/-- Python `str.strip()`: remove leading and trailing whitespace. -/
def pyStrip (cs : List Char) : List Char :=
  ((cs.dropWhile isSpaceCh).reverse.dropWhile isSpaceCh).reverse

/-- Match a literal character sequence at the head of the input and return the
remainder (regex literal text). -/
def lit : List Char → List Char → Option (List Char)
  | [], cs => some cs
  | _ :: _, [] => none
  | l :: ls, c :: cs => if l = c then lit ls cs else none

/-- Greedily take one or more characters of a class, returning the chunk and
the remainder (regex `class+`). -/
def takeClass1 (p : Char → Bool) (cs : List Char) : Option (List Char × List Char) :=
  let t := cs.takeWhile p
  if t.isEmpty then none else some (t, cs.dropWhile p)

/-- Regex `([^)]+)\)`: capture a nonempty run of non-`)` characters and consume
the closing parenthesis. -/
def arg (cs : List Char) : Option (List Char × List Char) :=
  match takeClass1 (fun c => c != ')') cs with
  | some (t, ')' :: r) => some (t, r)
  | _ => none

/-- Regex `\s+`: one or more whitespace characters. -/
def ws1 (cs : List Char) : Option (List Char) :=
  (takeClass1 isSpaceCh cs).map (·.2)

/-- Regex `\s*`: zero or more whitespace characters. -/
def ws0 (cs : List Char) : List Char := cs.dropWhile isSpaceCh

/-- Regex `(\.where\([^)]+\))`: capture a whole `.where(...)` group (text
includes the leading dot and both parentheses). -/
def whereGrp (cs : List Char) : Option (List Char × List Char) := do
  let r1 ← lit ".where(".data cs
  match takeClass1 (fun c => c != ')') r1 with
  | some (t, ')' :: r2) => some (".where(".data ++ t ++ [')'], r2)
  | _ => none

/-- Regex `([!<>=]+)` / `([><=!]+)`: one or more comparison-operator
characters. -/
def opChars (cs : List Char) : Option (List Char × List Char) :=
  takeClass1 (fun c => c = '!' || c = '<' || c = '>' || c = '=') cs

/-- Regex `(\d+)`: one or more decimal digits. -/
def digits1 (cs : List Char) : Option (List Char × List Char) :=
  takeClass1 (fun c => c.isDigit) cs

/-- Pattern 1 of `convert_condition`:
`trace\.has\(([^)]+)\)(\.where\([^)]+\))?\s+and\s+not\s+trace\.has\(([^)]+)\)`
→ `when { A[.where(W)] } never { B }`. The optional `where` group is greedy
with fallback, exactly like the regex engine. -/
def recog1 (cs : List Char) : Option (List Char × List Char) :=
  match lit "trace.has(".data cs with
  | none => none
  | some r1 =>
    match arg r1 with
    | none => none
    | some (a, r2) =>
      let tail := fun (w r : List Char) => do
        let r3 ← ws1 r
        let r4 ← lit "and".data r3
        let r5 ← ws1 r4
        let r6 ← lit "not".data r5
        let r7 ← ws1 r6
        let r8 ← lit "trace.has(".data r7
        let (b, r9) ← arg r8
        pure ("when \x7b ".data ++ a ++ w ++ " \x7d never \x7b ".data ++ b ++ " \x7d".data, r9)
      (do
        let (w, rw) ← whereGrp r2
        tail w rw) <|> tail [] r2

/-- Pattern 2:
`trace\.has\(([^)]+)\)\s+and\s+trace\.has\(([^)]+)\)\s+and\s+trace\.has\(([^)]+)\)(\.where\([^)]+\))`
→ `when { A and B } always { C.where(W) }`. -/
def recog2 (cs : List Char) : Option (List Char × List Char) := do
  let r1 ← lit "trace.has(".data cs
  let (a, r2) ← arg r1
  let r3 ← ws1 r2
  let r4 ← lit "and".data r3
  let r5 ← ws1 r4
  let r6 ← lit "trace.has(".data r5
  let (b, r7) ← arg r6
  let r8 ← ws1 r7
  let r9 ← lit "and".data r8
  let r10 ← ws1 r9
  let r11 ← lit "trace.has(".data r10
  let (c, r12) ← arg r11
  let (w, r13) ← whereGrp r12
  pure ("when \x7b ".data ++ a ++ " and ".data ++ b ++ " \x7d always \x7b ".data ++ c ++ w ++ " \x7d".data, r13)

/-- Pattern 3:
`trace\.has\(([^)]+)\)(\.where\([^)]+\))\s+and\s+trace\.has\(([^)]+)\)(\.where\([^)]+\))`
→ `when { A.where(Wa) } always { B.where(Wb) }`. -/
def recog3 (cs : List Char) : Option (List Char × List Char) := do
  let r1 ← lit "trace.has(".data cs
  let (a, r2) ← arg r1
  let (wa, r3) ← whereGrp r2
  let r4 ← ws1 r3
  let r5 ← lit "and".data r4
  let r6 ← ws1 r5
  let r7 ← lit "trace.has(".data r6
  let (b, r8) ← arg r7
  let (wb, r9) ← whereGrp r8
  pure ("when \x7b ".data ++ a ++ wa ++ " \x7d always \x7b ".data ++ b ++ wb ++ " \x7d".data, r9)

/-- Pattern 4a:
`trace\.has\(([^)]+)\)(\.where\([^)]+\))\s+and\s+trace\.has\(([^)]+)\)(?!\.where)`
→ `when { A.where(W) } always { B }` (negative lookahead after `B`). -/
def recog4a (cs : List Char) : Option (List Char × List Char) := do
  let r1 ← lit "trace.has(".data cs
  let (a, r2) ← arg r1
  let (w, r3) ← whereGrp r2
  let r4 ← ws1 r3
  let r5 ← lit "and".data r4
  let r6 ← ws1 r5
  let r7 ← lit "trace.has(".data r6
  let (b, r8) ← arg r7
  if ".where".data.isPrefixOf r8 then none
  else pure ("when \x7b ".data ++ a ++ w ++ " \x7d always \x7b ".data ++ b ++ " \x7d".data, r8)

/-- Pattern 4b:
`trace\.has\(([^)]+)\)\s+and\s+trace\.has\(([^)]+)\)(\.where\([^)]+\))`
→ `when { A } always { B.where(W) }`. -/
def recog4b (cs : List Char) : Option (List Char × List Char) := do
  let r1 ← lit "trace.has(".data cs
  let (a, r2) ← arg r1
  let r3 ← ws1 r2
  let r4 ← lit "and".data r3
  let r5 ← ws1 r4
  let r6 ← lit "trace.has(".data r5
  let (b, r7) ← arg r6
  let (w, r8) ← whereGrp r7
  pure ("when \x7b ".data ++ a ++ " \x7d always \x7b ".data ++ b ++ w ++ " \x7d".data, r8)

/-- Pattern 5: `trace\.has\(([^)]+)\)\s+and\s+trace\.has\(([^)]+)\)`
→ `when { A } always { B }`. -/
def recog5 (cs : List Char) : Option (List Char × List Char) := do
  let r1 ← lit "trace.has(".data cs
  let (a, r2) ← arg r1
  let r3 ← ws1 r2
  let r4 ← lit "and".data r3
  let r5 ← ws1 r4
  let r6 ← lit "trace.has(".data r5
  let (b, r7) ← arg r6
  pure ("when \x7b ".data ++ a ++ " \x7d always \x7b ".data ++ b ++ " \x7d".data, r7)

/-- Pattern 6: `trace\.count\(([^)]+)\)\s*([!<>=]+)\s*trace\.count\(([^)]+)\)`
→ `# TODO: Add always/never clause\nwhen { count(A) OP count(B) }`. -/
def recog6 (cs : List Char) : Option (List Char × List Char) := do
  let r1 ← lit "trace.count(".data cs
  let (a, r2) ← arg r1
  let (op, r3) ← opChars (ws0 r2)
  let r4 ← lit "trace.count(".data (ws0 r3)
  let (b, r5) ← arg r4
  pure ("# TODO: Add always/never clause\nwhen \x7b count(".data ++ a ++ ") ".data ++
    op ++ " count(".data ++ b ++ ") \x7d".data, r5)

/-- Pattern 7: `trace\.count\(([^)]+)\)\s*([><=!]+)\s*(\d+)`
→ `# TODO: Add always/never clause (e.g., always { alert })\nwhen { count(X) OP N }`. -/
def recog7 (cs : List Char) : Option (List Char × List Char) := do
  let r1 ← lit "trace.count(".data cs
  let (a, r2) ← arg r1
  let (op, r3) ← opChars (ws0 r2)
  let (n, r4) ← digits1 (ws0 r3)
  pure ("# TODO: Add always/never clause (e.g., always \x7b alert \x7d)\nwhen \x7b count(".data ++
    a ++ ") ".data ++ op ++ " ".data ++ n ++ " \x7d".data, r4)

/-- Pattern 8: `trace\.has\(([^)]+)\)(\.where\([^)]+\))`
→ `# TODO: Add always/never clause\nwhen { X.where(W) }`. -/
def recog8 (cs : List Char) : Option (List Char × List Char) := do
  let r1 ← lit "trace.has(".data cs
  let (a, r2) ← arg r1
  let (w, r3) ← whereGrp r2
  pure ("# TODO: Add always/never clause\nwhen \x7b ".data ++ a ++ w ++ " \x7d".data, r3)

/-- Pattern 9: `trace\.has\(([^)]+)\)`
→ `# TODO: Add always/never clause\nwhen { X }`. -/
def recog9 (cs : List Char) : Option (List Char × List Char) := do
  let r1 ← lit "trace.has(".data cs
  let (a, r2) ← arg r1
  pure ("# TODO: Add always/never clause\nwhen \x7b ".data ++ a ++ " \x7d".data, r2)

/-- Fallback text of `convert_condition` when no recognizer matches
(`# TODO: Manual conversion required\n# Original: {condition}`). -/
def manualReviewOut (condition : List Char) : List Char :=
  "# TODO: Manual conversion required\n# Original: ".data ++ condition

/-- The full recognizer cascade of `convert_condition`, in source order; the
first structural match wins. The unconsumed remainder of the winning
recognizer is carried along (and discarded by `convert_condition`). -/
def cascade (c : List Char) : Option (List Char × List Char) :=
  recog1 c <|> recog2 c <|> recog3 c <|> recog4a c <|> recog4b c <|>
  recog5 c <|> recog6 c <|> recog7 c <|> recog8 c <|> recog9 c

/-- Embedding of `convert_condition` from
`src/backend/scripts/convert-yaml-dsl.py`: strip the input, try the nine
recognizers in order, fall back to a manual-review comment. -/
def convert_condition (s : String) : String :=
  let condition := pyStrip s.data
  match cascade condition with
  | some (out, _) => String.mk out
  | none => String.mk (manualReviewOut condition)

/-! ## Batch converter (`convert_yaml_file`) -/

/-- Python substring test (`needle in hay`). -/
def hasSub (n : List Char) : List Char → Bool
  | [] => n.isEmpty
  | c :: t => n.isPrefixOf (c :: t) || hasSub n t

/-- Values of the YAML documents the batch converter operates on (scalars,
sequences and nested mappings, as produced by `yaml.safe_load`). -/
inductive YamlVal where
  | str : String → YamlVal
  | int : Int → YamlVal
  | bool : Bool → YamlVal
  | null : YamlVal
  | seq : List YamlVal → YamlVal
  | map : List (String × YamlVal) → YamlVal

/-- A rule record: an insertion-ordered mapping (Python dict with unique
keys), as iterated by `convert_yaml_file`. -/
abbrev Rule := List (String × YamlVal)

/-- Python `'condition' in rule` / `rule['condition']`: first binding of a
key. -/
def getField (r : Rule) (k : String) : Option YamlVal :=
  match r with
  | [] => none
  | (k2, v) :: t => if k2 = k then some v else getField t k

/-- Python `rule[k] = v` for a key already present: replace the value in
place, keeping the key's position and every other binding. -/
def setField (r : Rule) (k : String) (v : YamlVal) : Rule :=
  match r with
  | [] => []
  | (k2, w) :: t => if k2 = k then (k2, v) :: t else (k2, w) :: setField t k v

/-- The needs-review marker prepended when the converted text still contains a
set-membership construct (line 140 of `convert-yaml-dsl.py`). -/
def inOpMarker : List Char :=
  "# TODO: DSL doesn\x27t support \x27in\x27 operator - convert to multiple != checks\n".data

/-- Lines 138-141 of `convert-yaml-dsl.py`: the condition actually stored back
into the rule — the converted text, prefixed with `inOpMarker` when it
contains `' not in ['` or `' in ['`. -/
def storedCondition (old : String) : String :=
  let nc := (convert_condition old).data
  if hasSub " not in [".data nc || hasSub " in [".data nc then
    String.mk (inOpMarker ++ nc)
  else
    String.mk nc

/-- Lines 134-141: how much a single rule's converted text adds to
`needs_review_count` — one for a review marker (`TODO` or `#`), plus one more
for a set-membership construct. -/
def reviewIncr (nc : List Char) : Nat :=
  (if hasSub "TODO".data nc || hasSub "#".data nc then 1 else 0) +
  (if hasSub " not in [".data nc || hasSub " in [".data nc then 1 else 0)

/-- Lines 129-144 applied to one rule record: skip records without a
`condition` field; convert string conditions in place and report the counter
increments; a non-string `condition` makes the Python crash (`none`). -/
def processRule (r : Rule) : Option (Rule × Nat × Nat) :=
  match getField r "condition" with
  | none => some (r, 0, 0)
  | some (YamlVal.str old) =>
      some (setField r "condition" (YamlVal.str (storedCondition old)), 1,
        reviewIncr (convert_condition old).data)
  | some _ => none

/-- Embedding of `convert_yaml_file` on the parsed `rules` list: convert every
record's `condition` field in place and return the transformed records
together with `(converted_count, needs_review_count)`. File reading/writing
and the four-line header comment are outside the model. -/
def convert_yaml_file : List Rule → Option (List Rule × Nat × Nat)
  | [] => some ([], 0, 0)
  | r :: rest => do
    let (r2, c1, n1) ← processRule r
    let (rest2, c2, n2) ← convert_yaml_file rest
    pure (r2 :: rest2, c1 + c2, n1 + n2)

-- scratch checks (to be removed)
example : convert_yaml_file [[("condition", YamlVal.str "trace.has(X).where(a in [1])")]] =
    some ([[("condition", YamlVal.str
      (String.mk (inOpMarker ++ "# TODO: Add always/never clause\nwhen \x7b X.where(a in [1]) \x7d".data)))]],
      1, 2) := by rfl
example : convert_yaml_file
    [[("name", YamlVal.str "r1"),
      ("condition", YamlVal.str "trace.has(A) and trace.has(B)"),
      ("meta", YamlVal.map [("sev", YamlVal.str "high")])]] =
    some ([[("name", YamlVal.str "r1"),
      ("condition", YamlVal.str "when \x7b A \x7d always \x7b B \x7d"),
      ("meta", YamlVal.map [("sev", YamlVal.str "high")])]], 1, 0) := by rfl

/-! ## Characterization lemmas for the recognizer primitives -/

theorem lit_eq_some : ∀ {l cs r : List Char}, lit l cs = some r ↔ cs = l ++ r
  | [], cs, r => by simp [lit]
  | l :: ls, [], r => by simp [lit]
  | l :: ls, c :: cs, r => by
    by_cases h : l = c
    · subst h
      simp only [lit, if_pos rfl, List.cons_append, List.cons.injEq, true_and]
      exact lit_eq_some
    · simp only [lit, if_neg h, List.cons_append]
      constructor
      · intro hh
        exact Option.noConfusion hh
      · intro hh
        injection hh with h1 h2
        exact absurd h1.symm h

theorem lit_self (l r : List Char) : lit l (l ++ r) = some r := lit_eq_some.mpr rfl

theorem takeClass1_eq_some {p : Char → Bool} {cs t r : List Char} :
    takeClass1 p cs = some (t, r) ↔
      cs = t ++ r ∧ t ≠ [] ∧ (∀ c ∈ t, p c = true) ∧
        (∀ c, r.head? = some c → p c = false) := by
  constructor
  · intro h
    simp only [takeClass1] at h
    split at h
    · exact absurd h (by simp)
    · rename_i hne
      obtain ⟨rfl, rfl⟩ : cs.takeWhile p = t ∧ cs.dropWhile p = r := by
        simpa using h
      refine ⟨(List.takeWhile_append_dropWhile p cs).symm, ?_, ?_, ?_⟩
      · intro hnil
        simp [hnil] at hne
      · intro c hc
        exact List.mem_takeWhile_imp hc
      · intro c hc
        have h2 := List.head?_dropWhile_not p cs
        rw [hc] at h2
        exact h2
  · rintro ⟨rfl, hne, hall, hhd⟩
    have htk : (t ++ r).takeWhile p = t := by
      rw [List.takeWhile_append_of_pos hall]
      cases r with
      | nil => simp
      | cons c r2 =>
        rw [List.takeWhile_cons_of_neg]
        · simp
        · simp [hhd c rfl]
    have hdr : (t ++ r).dropWhile p = r := by
      have h3 := List.takeWhile_append_dropWhile p (t ++ r)
      rw [htk] at h3
      exact List.append_cancel_left h3
    simp [takeClass1, htk, hdr, hne]

theorem arg_eq_some {cs t r : List Char} :
    arg cs = some (t, r) ↔
      cs = t ++ ')' :: r ∧ t ≠ [] ∧ (∀ c ∈ t, (c != ')') = true) := by
  constructor
  · intro h
    simp only [arg] at h
    split at h
    · rename_i t0 r0 heq
      obtain ⟨rfl, rfl⟩ : t0 = t ∧ r0 = r := by simpa using h
      obtain ⟨hcs, hne, hall, _⟩ := takeClass1_eq_some.mp heq
      exact ⟨hcs, hne, hall⟩
    · exact absurd h (by simp)
  · rintro ⟨rfl, hne, hall⟩
    have h1 : takeClass1 (fun c => c != ')') (t ++ ')' :: r) = some (t, ')' :: r) :=
      takeClass1_eq_some.mpr ⟨rfl, hne, hall, by
        intro c hc
        simp only [List.head?_cons, Option.some.injEq] at hc
        subst hc
        decide⟩
    simp [arg, h1]

theorem ws1_eq_some {cs r : List Char} :
    ws1 cs = some r ↔
      ∃ sp, cs = sp ++ r ∧ sp ≠ [] ∧ (∀ c ∈ sp, isSpaceCh c = true) ∧
        (∀ c, r.head? = some c → isSpaceCh c = false) := by
  constructor
  · intro h
    simp only [ws1, Option.map_eq_some'] at h
    obtain ⟨⟨sp, r0⟩, heq, hr⟩ := h
    obtain ⟨hcs, hne, hall, hhd⟩ := takeClass1_eq_some.mp heq
    cases hr
    exact ⟨sp, hcs, hne, hall, hhd⟩
  · rintro ⟨sp, rfl, hne, hall, hhd⟩
    have h1 : takeClass1 isSpaceCh (sp ++ r) = some (sp, r) :=
      takeClass1_eq_some.mpr ⟨rfl, hne, hall, hhd⟩
    simp [ws1, h1]

theorem whereGrp_eq_some {cs w r : List Char} :
    whereGrp cs = some (w, r) ↔
      ∃ t, cs = ".where(".data ++ t ++ ')' :: r ∧ w = ".where(".data ++ t ++ [')'] ∧
        t ≠ [] ∧ (∀ c ∈ t, (c != ')') = true) := by
  constructor
  · intro h
    simp only [whereGrp, Option.bind_eq_bind, Option.bind_eq_some] at h
    obtain ⟨r1, hlit, h⟩ := h
    split at h
    · rename_i t0 r0 heq
      obtain ⟨hw, hr⟩ : ".where(".data ++ t0 ++ [')'] = w ∧ r0 = r := by simpa using h
      subst hr
      obtain ⟨hcs, hne, hall, _⟩ := takeClass1_eq_some.mp heq
      refine ⟨t0, ?_, hw.symm, hne, hall⟩
      rw [lit_eq_some.mp hlit, hcs, List.append_assoc]
    · exact absurd h (by simp)
  · rintro ⟨t, rfl, rfl, hne, hall⟩
    have hlit : lit ".where(".data (".where(".data ++ t ++ ')' :: r) =
        some (t ++ ')' :: r) := by
      rw [List.append_assoc]
      exact lit_self _ _
    have h1 : takeClass1 (fun c => c != ')') (t ++ ')' :: r) = some (t, ')' :: r) :=
      takeClass1_eq_some.mpr ⟨rfl, hne, hall, by
        intro c hc
        simp only [List.head?_cons, Option.some.injEq] at hc
        subst hc
        decide⟩
    simp only [whereGrp, Option.bind_eq_bind, hlit, Option.some_bind, h1]

theorem ws1_cons_not {c : Char} {cs : List Char} (h : isSpaceCh c = false) :
    ws1 (c :: cs) = none := by
  simp [ws1, takeClass1, List.takeWhile_cons, h]

theorem lit_cons_ne {a b : Char} {l cs : List Char} (h : ¬ a = b) :
    lit (a :: l) (b :: cs) = none := by
  simp [lit, h]

/-- Inversion for recognizer 3: a successful match decomposes the input into
the chain of primitive matches of the pattern. -/
theorem recog3_inv {cs out rest : List Char} (h : recog3 cs = some (out, rest)) :
    ∃ r1 a r2 wa r3 r4 r5 r6 r7 b r8 wb,
      lit "trace.has(".data cs = some r1 ∧ arg r1 = some (a, r2) ∧
      whereGrp r2 = some (wa, r3) ∧ ws1 r3 = some r4 ∧
      lit "and".data r4 = some r5 ∧ ws1 r5 = some r6 ∧
      lit "trace.has(".data r6 = some r7 ∧ arg r7 = some (b, r8) ∧
      whereGrp r8 = some (wb, rest) ∧
      out = "when \x7b ".data ++ a ++ wa ++ " \x7d always \x7b ".data ++ b ++ wb ++ " \x7d".data := by
  simp only [recog3, Option.bind_eq_bind, Option.pure_def, Option.bind_eq_some,
    Option.some.injEq, Prod.mk.injEq] at h
  obtain ⟨r1, h1, ⟨a, r2⟩, h2, ⟨wa, r3⟩, h3, r4, h4, r5, h5, r6, h6, r7, h7,
    ⟨b, r8⟩, h8, ⟨wb, r9⟩, h9, hout, hrest⟩ := h
  subst hrest
  exact ⟨r1, a, r2, wa, r3, r4, r5, r6, r7, b, r8, wb,
    h1, h2, h3, h4, h5, h6, h7, h8, h9, hout.symm⟩

/-- C1: the recognizer cascade is strictly ordered and the first structural
match wins; in particular, whenever the two-where shape (source pattern 3,
spec shape 3) matches a stripped legacy input, `convert_condition` returns
exactly that recognizer's translation — no later, more general shape (such as
the bare has-and-has spec shape 6, whose anchored pattern in fact cannot fire
on such an input) can steal the match, and the two earlier patterns are proved
to fail on every shape-3 input. -/
theorem convert_condition_shape3_priority (s : String) (out rest : List Char)
    (h3 : recog3 (pyStrip s.data) = some (out, rest)) :
    convert_condition s = String.mk out := by
  obtain ⟨r1, a, r2, wa, r3, r4, r5, r6, r7, b, r8, wb,
    hlit1, harg, hwg, hws1, hand, hws2, hlit2, harg2, hwg2, hout⟩ := recog3_inv h3
  obtain ⟨t, hr2, -, -, -⟩ := whereGrp_eq_some.mp hwg
  have hr2c : r2 = '.' :: ("where(".data ++ t ++ ')' :: r3) := by rw [hr2]; rfl
  have hwsr2 : ws1 r2 = none := by rw [hr2c]; exact ws1_cons_not (by decide)
  have hr6 : r6 = 't' :: ("race.has(".data ++ r7) := by rw [lit_eq_some.mp hlit2]; rfl
  have hnot : lit "not".data r6 = none := by
    rw [hr6]
    exact lit_cons_ne (by decide)
  have h1 : recog1 (pyStrip s.data) = none := by
    simp only [recog1, hlit1, harg, hwg, hws1, hand, hws2, hnot, hwsr2,
      Option.bind_eq_bind, Option.some_bind, Option.none_bind, Option.none_orElse]
  have h2 : recog2 (pyStrip s.data) = none := by
    simp only [recog2, hlit1, harg, hwsr2, Option.bind_eq_bind, Option.some_bind,
      Option.none_bind]
  have hcas : cascade (pyStrip s.data) = some (out, rest) := by
    simp only [cascade, h1, h2, h3, Option.none_orElse, Option.some_orElse]
  simp only [convert_condition, hcas]

/-- Witness for C1 at a concrete shape-3 input. -/
theorem convert_condition_shape3_priority_witness :
    convert_condition "trace.has(A).where(x==1) and trace.has(B).where(y==2)" =
      String.mk "when \x7b A.where(x==1) \x7d always \x7b B.where(y==2) \x7d".data :=
  convert_condition_shape3_priority _ _ [] (by decide)

/-- C4: `convert_condition` is total — in the embedding it is a function into
strings — and on input matched by none of the nine recognizers it returns the
original (stripped) text inside the commented manual-review marker instead of
failing. -/
theorem convert_condition_fallback_total (s : String)
    (h1 : recog1 (pyStrip s.data) = none) (h2 : recog2 (pyStrip s.data) = none)
    (h3 : recog3 (pyStrip s.data) = none) (h4 : recog4a (pyStrip s.data) = none)
    (h5 : recog4b (pyStrip s.data) = none) (h6 : recog5 (pyStrip s.data) = none)
    (h7 : recog6 (pyStrip s.data) = none) (h8 : recog7 (pyStrip s.data) = none)
    (h9 : recog8 (pyStrip s.data) = none) (h10 : recog9 (pyStrip s.data) = none) :
    convert_condition s = String.mk (manualReviewOut (pyStrip s.data)) := by
  have hcas : cascade (pyStrip s.data) = none := by
    simp only [cascade, h1, h2, h3, h4, h5, h6, h7, h8, h9, h10, Option.none_orElse]
  simp only [convert_condition, hcas]

/-- Witness for C4 at an unrecognized input. -/
theorem convert_condition_fallback_total_witness :
    convert_condition "hello" = String.mk (manualReviewOut (pyStrip "hello".data)) :=
  convert_condition_fallback_total "hello" (by decide) (by decide) (by decide)
    (by decide) (by decide) (by decide) (by decide) (by decide) (by decide) (by decide)

/-- `lit` on a pattern starting with `'t'` fails when the input does not start
with `'t'`. -/
theorem lit_t_none {cs : List Char} (h : cs.head? ≠ some 't') (l : List Char) :
    lit ('t' :: l) cs = none := by
  cases cs with
  | nil => rfl
  | cons c cs2 =>
    apply lit_cons_ne
    intro hh
    exact h (by simp [← hh])

/-- Every recognizer anchors on the literal prefix `trace.`; on input not
starting with `'t'` the whole cascade fails. -/
theorem cascade_head_ne_t {cs : List Char} (h : cs.head? ≠ some 't') :
    cascade cs = none := by
  have hh : lit "trace.has(".data cs = none := by
    have he : "trace.has(".data = 't' :: "race.has(".data := rfl
    rw [he]
    exact lit_t_none h _
  have hc : lit "trace.count(".data cs = none := by
    have he : "trace.count(".data = 't' :: "race.count(".data := rfl
    rw [he]
    exact lit_t_none h _
  simp only [cascade, recog1, recog2, recog3, recog4a, recog4b, recog5, recog6,
    recog7, recog8, recog9, hh, hc, Option.bind_eq_bind, Option.none_bind,
    Option.none_orElse]

/-- If a character list starts with `a :: l` then its head is `a`. -/
theorem isPrefixOf_head {a : Char} {l cs : List Char}
    (h : (a :: l).isPrefixOf cs = true) : cs.head? = some a := by
  cases cs with
  | nil => simp [List.isPrefixOf] at h
  | cons c cs2 =>
    simp only [List.isPrefixOf, Bool.and_eq_true, beq_iff_eq] at h
    simp [h.1]

/-- A list is a prefix (in the Boolean sense) of itself followed by anything. -/
theorem isPrefixOf_append_self : ∀ (l r : List Char), l.isPrefixOf (l ++ r) = true
  | [], _ => by simp [List.isPrefixOf]
  | a :: l, r => by simp [List.isPrefixOf, isPrefixOf_append_self l r]

/-- C7: conversion is not self-applicable — on any text already in the current
dialect (which, like every `convert_condition` output, starts with `when {` or
with a `# TODO` marker after stripping), no legacy recognizer matches, so
re-applying `convert_condition` takes the no-shape-matches fallback branch and
returns a manual-review comment rather than any recognizer's translation. -/
theorem convert_condition_not_self_applicable (s : String)
    (h : "when \x7b".data.isPrefixOf (pyStrip s.data) = true ∨
         "# TODO".data.isPrefixOf (pyStrip s.data) = true) :
    convert_condition s = String.mk (manualReviewOut (pyStrip s.data)) ∧
    "# TODO".data.isPrefixOf (convert_condition s).data = true := by
  have hhd : (pyStrip s.data).head? ≠ some 't' := by
    rcases h with h | h
    · have he : "when \x7b".data = 'w' :: "hen \x7b".data := rfl
      rw [he] at h
      rw [isPrefixOf_head h]
      decide
    · have he : "# TODO".data = '#' :: " TODO".data := rfl
      rw [he] at h
      rw [isPrefixOf_head h]
      decide
  have hcas : cascade (pyStrip s.data) = none := cascade_head_ne_t hhd
  have hmain : convert_condition s = String.mk (manualReviewOut (pyStrip s.data)) := by
    simp only [convert_condition, hcas]
  refine ⟨hmain, ?_⟩
  rw [hmain]
  have he2 : manualReviewOut (pyStrip s.data) =
      "# TODO".data ++ (": Manual conversion required\n# Original: ".data ++ pyStrip s.data) := rfl
  rw [he2]
  exact isPrefixOf_append_self _ _

/-- Witness for C7 at a concrete current-dialect input. -/
theorem convert_condition_not_self_applicable_witness :
    convert_condition "when \x7b A \x7d never \x7b B \x7d" =
      String.mk (manualReviewOut (pyStrip "when \x7b A \x7d never \x7b B \x7d".data)) ∧
    "# TODO".data.isPrefixOf
      (convert_condition "when \x7b A \x7d never \x7b B \x7d").data = true :=
  convert_condition_not_self_applicable _ (Or.inl (by decide))

/-- C2: whenever the converted text contains a set-membership construct
(`' in ['` or `' not in ['`), the batch converter prepends the needs-review
marker line before storing it, regardless of which recognizer produced the
text. -/
theorem storedCondition_in_op_marker (old : String)
    (h : hasSub " in [".data (convert_condition old).data = true ∨
         hasSub " not in [".data (convert_condition old).data = true) :
    storedCondition old = String.mk (inOpMarker ++ (convert_condition old).data) := by
  simp only [storedCondition]
  rcases h with h | h
  · rw [h]
    simp
  · rw [h]
    simp

/-- Witness for C2 at an input whose conversion contains `' in ['`. -/
theorem storedCondition_in_op_marker_witness :
    storedCondition "trace.has(A).where(x in [1,2]) and trace.has(B)" =
      String.mk (inOpMarker ++
        (convert_condition "trace.has(A).where(x in [1,2]) and trace.has(B)").data) :=
  storedCondition_in_op_marker _ (Or.inl (by decide))

/-- C5: the concrete scenario `trace.has(A).where(x==1) and not trace.has(B)`
converts to `when { A.where(x==1) } never { B }` and is not flagged
needs-review by the batch converter. -/
theorem convert_condition_where_not_has_example :
    convert_condition "trace.has(A).where(x==1) and not trace.has(B)" =
      "when \x7b A.where(x==1) \x7d never \x7b B \x7d" ∧
    convert_yaml_file
      [[("condition", YamlVal.str "trace.has(A).where(x==1) and not trace.has(B)")]] =
      some ([[("condition",
        YamlVal.str "when \x7b A.where(x==1) \x7d never \x7b B \x7d")]], 1, 0) :=
  ⟨by decide, by rfl⟩

/-- C6: the concrete scenario `trace.count(X) > 5` converts to the two-line
TODO-marked text and is flagged needs-review (counted once) by the batch
converter. -/
theorem convert_condition_count_threshold_example :
    convert_condition "trace.count(X) > 5" =
      "# TODO: Add always/never clause (e.g., always \x7b alert \x7d)\nwhen \x7b count(X) > 5 \x7d" ∧
    convert_yaml_file [[("condition", YamlVal.str "trace.count(X) > 5")]] =
      some ([[("condition", YamlVal.str
        "# TODO: Add always/never clause (e.g., always \x7b alert \x7d)\nwhen \x7b count(X) > 5 \x7d")]],
        1, 1) :=
  ⟨by decide, by rfl⟩

/-- Inversion for recognizer 5: a successful match splits the input into the
literal skeleton `trace.has(A) and trace.has(B)` followed by the untouched
remainder, with the side conditions of each character class. -/
theorem recog5_inv {cs out rest : List Char} (h : recog5 cs = some (out, rest)) :
    ∃ a sp1 sp2 b,
      cs = "trace.has(".data ++ a ++ ')' ::
        (sp1 ++ ("and".data ++ (sp2 ++ ("trace.has(".data ++ (b ++ ')' :: rest))))) ∧
      out = "when \x7b ".data ++ a ++ " \x7d always \x7b ".data ++ b ++ " \x7d".data ∧
      a ≠ [] ∧ (∀ c ∈ a, (c != ')') = true) ∧
      sp1 ≠ [] ∧ (∀ c ∈ sp1, isSpaceCh c = true) ∧
      sp2 ≠ [] ∧ (∀ c ∈ sp2, isSpaceCh c = true) ∧
      b ≠ [] ∧ (∀ c ∈ b, (c != ')') = true) := by
  simp only [recog5, Option.bind_eq_bind, Option.pure_def, Option.bind_eq_some,
    Option.some.injEq, Prod.mk.injEq] at h
  obtain ⟨r1, h1, ⟨a, r2⟩, h2, r3, h3, r4, h4, r5, h5, r6, h6, ⟨b, r7⟩, h7,
    hout, hrest⟩ := h
  dsimp only at h3 hout hrest
  subst hrest
  obtain ⟨ha1, ha2, ha3⟩ := arg_eq_some.mp h2
  obtain ⟨sp1, hs1, hs2, hs3, -⟩ := ws1_eq_some.mp h3
  obtain ⟨sp2, ht1, ht2, ht3, -⟩ := ws1_eq_some.mp h5
  obtain ⟨hb1, hb2, hb3⟩ := arg_eq_some.mp h7
  refine ⟨a, sp1, sp2, b, ?_, hout.symm, ha2, ha3, hs2, hs3, ht2, ht3, hb2, hb3⟩
  rw [lit_eq_some.mp h1, ha1, hs1, lit_eq_some.mp h4, ht1, lit_eq_some.mp h6, hb1]
  simp [List.append_assoc]

/-- Replay for recognizer 5: the recognizer accepts exactly the same skeleton
with any remainder — in particular with the remainder removed — and produces
the same translation. -/
theorem recog5_replay {a sp1 sp2 b rest : List Char}
    (ha2 : a ≠ []) (ha3 : ∀ c ∈ a, (c != ')') = true)
    (hs2 : sp1 ≠ []) (hs3 : ∀ c ∈ sp1, isSpaceCh c = true)
    (ht2 : sp2 ≠ []) (ht3 : ∀ c ∈ sp2, isSpaceCh c = true)
    (hb2 : b ≠ []) (hb3 : ∀ c ∈ b, (c != ')') = true) :
    recog5 ("trace.has(".data ++ a ++ ')' ::
        (sp1 ++ ("and".data ++ (sp2 ++ ("trace.has(".data ++ (b ++ ')' :: rest)))))) =
      some ("when \x7b ".data ++ a ++ " \x7d always \x7b ".data ++ b ++ " \x7d".data, rest) := by
  have h1 : lit "trace.has(".data
      ("trace.has(".data ++ a ++ ')' ::
        (sp1 ++ ("and".data ++ (sp2 ++ ("trace.has(".data ++ (b ++ ')' :: rest)))))) =
      some (a ++ ')' :: (sp1 ++ ("and".data ++ (sp2 ++ ("trace.has(".data ++ (b ++ ')' :: rest)))))) := by
    rw [← List.append_assoc]
    · exact lit_eq_some.mpr (by simp [List.append_assoc])
  have h2 : arg (a ++ ')' :: (sp1 ++ ("and".data ++ (sp2 ++ ("trace.has(".data ++ (b ++ ')' :: rest)))))) =
      some (a, sp1 ++ ("and".data ++ (sp2 ++ ("trace.has(".data ++ (b ++ ')' :: rest))))) :=
    arg_eq_some.mpr ⟨rfl, ha2, ha3⟩
  have h3 : ws1 (sp1 ++ ("and".data ++ (sp2 ++ ("trace.has(".data ++ (b ++ ')' :: rest))))) =
      some ("and".data ++ (sp2 ++ ("trace.has(".data ++ (b ++ ')' :: rest)))) := by
    refine ws1_eq_some.mpr ⟨sp1, rfl, hs2, hs3, ?_⟩
    intro c hc
    have he : ("and".data ++ (sp2 ++ ("trace.has(".data ++ (b ++ ')' :: rest)))).head? = some 'a' := rfl
    rw [he] at hc
    cases hc
    decide
  have h4 : lit "and".data ("and".data ++ (sp2 ++ ("trace.has(".data ++ (b ++ ')' :: rest)))) =
      some (sp2 ++ ("trace.has(".data ++ (b ++ ')' :: rest))) := lit_self _ _
  have h5 : ws1 (sp2 ++ ("trace.has(".data ++ (b ++ ')' :: rest))) =
      some ("trace.has(".data ++ (b ++ ')' :: rest)) := by
    refine ws1_eq_some.mpr ⟨sp2, rfl, ht2, ht3, ?_⟩
    intro c hc
    have he : ("trace.has(".data ++ (b ++ ')' :: rest)).head? = some 't' := rfl
    rw [he] at hc
    cases hc
    decide
  have h6 : lit "trace.has(".data ("trace.has(".data ++ (b ++ ')' :: rest)) =
      some (b ++ ')' :: rest) := lit_self _ _
  have h7 : arg (b ++ ')' :: rest) = some (b, rest) := arg_eq_some.mpr ⟨rfl, hb2, hb3⟩
  simp only [recog5, Option.bind_eq_bind, Option.pure_def, h1, Option.some_bind,
    h2, h3, h4, h5, h6, h7]

/-- C10: the legacy recognizers are anchored prefix matchers, not whole-input
matchers — a successful match of the has-and-has recognizer factors the input
into a matched prefix and an untouched remainder, the returned translation is
exactly the translation of that prefix alone, and the remainder is silently
discarded; concretely, `trace.has(A) and trace.has(B) and not trace.has(C)`
converts to `when { A } always { B }` (dropping `and not trace.has(C)`), and
pattern 1 likewise drops trailing text after its match. -/
theorem convert_condition_prefix_discard (cs out rest : List Char)
    (h : recog5 cs = some (out, rest)) :
    (∃ pre, cs = pre ++ rest ∧ recog5 pre = some (out, [])) ∧
    convert_condition "trace.has(A) and trace.has(B) and not trace.has(C)" =
      "when \x7b A \x7d always \x7b B \x7d" ∧
    convert_condition "trace.has(A).where(w==1) and not trace.has(B) junk" =
      "when \x7b A.where(w==1) \x7d never \x7b B \x7d" := by
  refine ⟨?_, by decide, by decide⟩
  obtain ⟨a, sp1, sp2, b, hcs, hout, ha2, ha3, hs2, hs3, ht2, ht3, hb2, hb3⟩ :=
    recog5_inv h
  refine ⟨"trace.has(".data ++ a ++ ')' ::
      (sp1 ++ ("and".data ++ (sp2 ++ ("trace.has(".data ++ (b ++ [')']))))), ?_, ?_⟩
  · rw [hcs]
    simp [List.append_assoc]
  · rw [hout]
    exact recog5_replay ha2 ha3 hs2 hs3 ht2 ht3 hb2 hb3

/-- Witness for C10 at the claim's concrete input. -/
theorem convert_condition_prefix_discard_witness :
    (∃ pre, "trace.has(A) and trace.has(B) and not trace.has(C)".data =
        pre ++ " and not trace.has(C)".data ∧
      recog5 pre = some ("when \x7b A \x7d always \x7b B \x7d".data, [])) ∧
    convert_condition "trace.has(A) and trace.has(B) and not trace.has(C)" =
      "when \x7b A \x7d always \x7b B \x7d" ∧
    convert_condition "trace.has(A).where(w==1) and not trace.has(B) junk" =
      "when \x7b A.where(w==1) \x7d never \x7b B \x7d" :=
  convert_condition_prefix_discard
    "trace.has(A) and trace.has(B) and not trace.has(C)".data
    "when \x7b A \x7d always \x7b B \x7d".data
    " and not trace.has(C)".data (by decide)

/-- C3 (evaluation at the failing input): a single rule whose condition is
`trace.has(X).where(a in [1])` makes the batch converter report
`needs_review_count = 2` while only 1 rule was processed — the converted text
is counted once for its `TODO`/`#` marker (line 135) and once more for its
` in [` construct (line 141), so the counter exceeds the number of rules. -/
theorem convert_yaml_file_double_count_eval :
    convert_yaml_file [[("condition", YamlVal.str "trace.has(X).where(a in [1])")]] =
      some ([[("condition", YamlVal.str (String.mk (inOpMarker ++
        "# TODO: Add always/never clause\nwhen \x7b X.where(a in [1]) \x7d".data)))]],
        1, 2) ∧
    1 < 2 :=
  ⟨by rfl, by decide⟩

/-- `setField` leaves the ordered key list of a record unchanged. -/
theorem setField_map_fst (r : Rule) (k : String) (v : YamlVal) :
    (setField r k v).map Prod.fst = r.map Prod.fst := by
  induction r with
  | nil => rfl
  | cons p t ih =>
    obtain ⟨k2, w⟩ := p
    by_cases hk : k2 = k
    · simp [setField, hk]
    · simp [setField, hk, ih]

/-- `setField` preserves the number of fields. -/
theorem setField_length (r : Rule) (k : String) (v : YamlVal) :
    (setField r k v).length = r.length := by
  induction r with
  | nil => rfl
  | cons p t ih =>
    obtain ⟨k2, w⟩ := p
    by_cases hk : k2 = k
    · simp [setField, hk]
    · simp [setField, hk, ih]

/-- `setField` leaves every binding whose key differs from `k` untouched, at
its original position. -/
theorem setField_getD_ne (r : Rule) (k : String) (v : YamlVal) (j : Nat)
    (hne : (r.getD j ("", YamlVal.null)).1 ≠ k) :
    (setField r k v).getD j ("", YamlVal.null) = r.getD j ("", YamlVal.null) := by
  induction r generalizing j with
  | nil => rfl
  | cons p t ih =>
    obtain ⟨k2, w⟩ := p
    by_cases hk : k2 = k
    · cases j with
      | zero =>
        simp only [List.getD_cons_zero] at hne
        exact absurd hk hne
      | succ j => simp [setField, hk]
    · cases j with
      | zero => simp [setField, hk]
      | succ j =>
        simp only [List.getD_cons_succ] at hne
        simp only [setField, if_neg hk, List.getD_cons_succ]
        exact ih j hne

/-- Frame property of processing a single rule: only the `condition` binding
can change; keys, field order, field count and all other bindings (values
included, hence nesting) are preserved. -/
theorem processRule_frame (r r2 : Rule) (c n : Nat)
    (h : processRule r = some (r2, c, n)) :
    r2.map Prod.fst = r.map Prod.fst ∧ r2.length = r.length ∧
    ∀ j, j < r.length → (r.getD j ("", YamlVal.null)).1 ≠ "condition" →
      r2.getD j ("", YamlVal.null) = r.getD j ("", YamlVal.null) := by
  simp only [processRule] at h
  split at h
  · simp only [Option.some.injEq, Prod.mk.injEq] at h
    obtain ⟨rfl, -, -⟩ := h
    exact ⟨rfl, rfl, fun j hj hne => rfl⟩
  · rename_i old heq
    simp only [Option.some.injEq, Prod.mk.injEq] at h
    obtain ⟨hr2, -, -⟩ := h
    subst hr2
    exact ⟨setField_map_fst r _ _, setField_length r _ _,
      fun j hj hne => setField_getD_ne r _ _ j hne⟩
  · exact absurd h (by simp)

/-- C8: the batch converter modifies only the `condition` field of each rule
record — the output has the same number of records in the same order, each
record keeps its ordered key list, and every binding whose key is not
`condition` keeps its exact value (nesting included) at its position. -/
theorem convert_yaml_file_frame (rules : List Rule) (out : List Rule × Nat × Nat)
    (h : convert_yaml_file rules = some out) :
    out.1.length = rules.length ∧
    ∀ i, i < rules.length →
      (out.1.getD i []).map Prod.fst = (rules.getD i []).map Prod.fst ∧
      (out.1.getD i []).length = (rules.getD i []).length ∧
      ∀ j, j < (rules.getD i []).length →
        ((rules.getD i []).getD j ("", YamlVal.null)).1 ≠ "condition" →
        (out.1.getD i []).getD j ("", YamlVal.null) =
          (rules.getD i []).getD j ("", YamlVal.null) := by
  induction rules generalizing out with
  | nil =>
    simp only [convert_yaml_file, Option.some.injEq] at h
    subst h
    exact ⟨rfl, fun i hi => absurd hi (by simp)⟩
  | cons r rest ih =>
    simp only [convert_yaml_file, Option.bind_eq_bind, Option.pure_def,
      Option.bind_eq_some, Option.some.injEq] at h
    obtain ⟨⟨r2, c1, n1⟩, hp, ⟨rest2, c2, n2⟩, hrest, hout⟩ := h
    dsimp only at hrest hout
    subst hout
    obtain ⟨hlen, hind⟩ := ih _ hrest
    obtain ⟨hm, hl, hj⟩ := processRule_frame r r2 c1 n1 hp
    refine ⟨by simpa using hlen, ?_⟩
    intro i hi
    cases i with
    | zero => exact ⟨hm, hl, hj⟩
    | succ i =>
      simp only [List.getD_cons_succ]
      exact hind i (by simpa using hi)

/-- A concrete document for the C8 witness. -/
def frameDemo : List Rule :=
  [[("name", YamlVal.str "r1"),
    ("condition", YamlVal.str "trace.has(A) and trace.has(B)"),
    ("meta", YamlVal.map [("sev", YamlVal.str "high")])]]

/-- The result of converting `frameDemo`. -/
def frameDemoOut : List Rule × Nat × Nat :=
  ([[("name", YamlVal.str "r1"),
     ("condition", YamlVal.str "when \x7b A \x7d always \x7b B \x7d"),
     ("meta", YamlVal.map [("sev", YamlVal.str "high")])]], 1, 0)

/-- Witness for C8 at a concrete document. -/
theorem convert_yaml_file_frame_witness :
    frameDemoOut.1.length = frameDemo.length ∧
    ∀ i, i < frameDemo.length →
      (frameDemoOut.1.getD i []).map Prod.fst = (frameDemo.getD i []).map Prod.fst ∧
      (frameDemoOut.1.getD i []).length = (frameDemo.getD i []).length ∧
      ∀ j, j < (frameDemo.getD i []).length →
        ((frameDemo.getD i []).getD j ("", YamlVal.null)).1 ≠ "condition" →
        (frameDemoOut.1.getD i []).getD j ("", YamlVal.null) =
          (frameDemo.getD i []).getD j ("", YamlVal.null) :=
  convert_yaml_file_frame frameDemo frameDemoOut (by rfl)

/-! ## Current-dialect lexer, ParseError model and parser (for C9)

The parser refactored by `src/backend/refactor-parser.py` (FluoDslParser and
its Lexer / ParseError classes) is repository code that is not under `src/`;
only the refactor script that rewrites its error sites is. The definitions
below are therefore modelled from the spec (§3, §4.1, §4.2, §7) and from the
error-site replacements the script performs, which fix the exact constructor
calls (`lexer.getInput()`, `token.position()`, expected/actual text and error
kinds) used at every failure point. -/

/-- Modelled from the spec: the closed error taxonomy of §3/§7 for the missing
ParseError class. -/
inductive ErrorType where
  | UNEXPECTED_END
  | UNEXPECTED_TOKEN
  | MISSING_TOKEN
  | INVALID_IDENTIFIER
  | INVALID_VALUE
  | INVALID_OPERATOR
deriving DecidableEq

/-- Modelled from the spec: the ParseError value of §3 — message, full input
being parsed, position, kind, optional remediation hint. -/
structure ParseError where
  message : List Char
  input : List Char
  position : Nat
  kind : ErrorType
  hint : Option (List Char)
deriving DecidableEq

/-- Modelled from the spec: `ParseError.unexpectedEnd(input)` — end of input
reached; the position is the input length (§8: "or input length if at
end"). -/
def ParseError.unexpectedEnd (inp : List Char) : ParseError :=
  ⟨"Unexpected end of input".data, inp, inp.length, ErrorType.UNEXPECTED_END, none⟩

/-- Modelled from the spec: `ParseError.unexpectedToken(input, position,
expected, actual)` as called by the refactor script's replacement sites. -/
def ParseError.unexpectedToken (inp : List Char) (pos : Nat)
    (expected actual : List Char) : ParseError :=
  ⟨"Expected ".data ++ expected ++ " but got: ".data ++ actual, inp, pos,
    ErrorType.UNEXPECTED_TOKEN, none⟩

/-- Modelled from the spec: `ParseError.missingToken(input, position,
expected)`. -/
def ParseError.missingToken (inp : List Char) (pos : Nat)
    (expected : List Char) : ParseError :=
  ⟨"Missing ".data ++ expected, inp, pos, ErrorType.MISSING_TOKEN, none⟩

/-- Modelled from the spec: `ParseError.invalidOperator(input, position,
actual)`. -/
def ParseError.invalidOperator (inp : List Char) (pos : Nat)
    (actual : List Char) : ParseError :=
  ⟨"Invalid operator: ".data ++ actual, inp, pos, ErrorType.INVALID_OPERATOR, none⟩

/-- Modelled from the spec: the closed token-kind set of §3. -/
inductive TokenKind where
  | ident
  | keyword
  | dot
  | lparen
  | rparen
  | compareOp
  | number
  | strLit
  | boolLit
  | listOpen
  | listClose
  | comma
  | invalid
  | eof
deriving DecidableEq

/-- Modelled from the spec: a token — kind, text, source position (§3). -/
structure Token where
  kind : TokenKind
  text : List Char
  pos : Nat
deriving DecidableEq

/-- The reserved keyword set of §3, recognized case-sensitively (§4.1). -/
def keywords : List (List Char) :=
  ["trace".data, "has".data, "count".data, "where".data, "when".data,
   "always".data, "never".data, "and".data, "or".data, "not".data]

def isIdentStart (c : Char) : Bool := c.isAlpha || c = '_'

def isIdentChar (c : Char) : Bool := c.isAlphanum || c = '_'

/-- The single-quote string delimiter of §4.1. -/
def quoteCh : Char := Char.ofNat 39

/-- Modelled from the spec: scan one token starting at character `c` (position
`pos`), returning the token and how many further characters of `rest` it
consumed. Unrecognized characters become `invalid` tokens rather than failures
(§4.1). -/
def scanTok (pos : Nat) (c : Char) (rest : List Char) : Token × Nat :=
  if isIdentStart c then
    let chunk := c :: rest.takeWhile isIdentChar
    let k : TokenKind :=
      if chunk ∈ keywords then TokenKind.keyword
      else if chunk = "true".data || chunk = "false".data then TokenKind.boolLit
      else TokenKind.ident
    (⟨k, chunk, pos⟩, (rest.takeWhile isIdentChar).length)
  else if c.isDigit || (c = '-' && ((rest.head?.map Char.isDigit).getD false)) then
    let body := rest.takeWhile (fun d => d.isDigit || d = '.')
    (⟨TokenKind.number, c :: body, pos⟩, body.length)
  else if c = quoteCh then
    let content := rest.takeWhile (fun d => d != quoteCh)
    match rest.dropWhile (fun d => d != quoteCh) with
    | [] => (⟨TokenKind.invalid, c :: content, pos⟩, content.length)
    | _ :: _ => (⟨TokenKind.strLit, content, pos⟩, content.length + 1)
  else if c = '.' then (⟨TokenKind.dot, [c], pos⟩, 0)
  else if c = '(' then (⟨TokenKind.lparen, [c], pos⟩, 0)
  else if c = ')' then (⟨TokenKind.rparen, [c], pos⟩, 0)
  else if c = '[' then (⟨TokenKind.listOpen, [c], pos⟩, 0)
  else if c = ']' then (⟨TokenKind.listClose, [c], pos⟩, 0)
  else if c = ',' then (⟨TokenKind.comma, [c], pos⟩, 0)
  else if c = '<' || c = '>' then
    match rest with
    | '=' :: _ => (⟨TokenKind.compareOp, [c, '='], pos⟩, 1)
    | _ => (⟨TokenKind.compareOp, [c], pos⟩, 0)
  else if c = '=' || c = '!' then
    match rest with
    | '=' :: _ => (⟨TokenKind.compareOp, [c, '='], pos⟩, 1)
    | _ => (⟨TokenKind.invalid, [c], pos⟩, 0)
  else (⟨TokenKind.invalid, [c], pos⟩, 0)

/-- Modelled from the spec: the tokenizer loop — whitespace is skipped while
advancing the position by exactly the skipped length; it always terminates
with an end-of-input token (§4.1). The fuel argument (one more than the input
length at the entry point) keeps the recursion structural; each step consumes
at least one character, so adequate fuel is never exhausted. -/
def lexAux : Nat → Nat → List Char → List Token
  | 0, pos, _ => [⟨TokenKind.eof, [], pos⟩]
  | _ + 1, pos, [] => [⟨TokenKind.eof, [], pos⟩]
  | fuel + 1, pos, c :: rest =>
    if isSpaceCh c then lexAux fuel (pos + 1) rest
    else
      let (tok, k) := scanTok pos c rest
      tok :: lexAux fuel (pos + 1 + k) (rest.drop k)

/-- Modelled from the spec: `tokenize(input)` (§4.1). -/
def tokenize (cs : List Char) : List Token := lexAux (cs.length + 1) 0 cs

/-- `takeWhile` never yields more than the whole list. -/
theorem length_takeWhile_le {α : Type} (p : α → Bool) :
    ∀ cs : List α, (cs.takeWhile p).length ≤ cs.length
  | [] => by simp
  | c :: cs => by
    rw [List.takeWhile_cons]
    split
    · simpa using length_takeWhile_le p cs
    · simp

/-- The scanner's extra consumption never exceeds the remaining input, and the
scanned token carries the position it was scanned at. -/
theorem scanTok_spec (pos : Nat) (c : Char) (rest : List Char) :
    (scanTok pos c rest).2 ≤ rest.length ∧ (scanTok pos c rest).1.pos = pos := by
  unfold scanTok
  by_cases h1 : isIdentStart c = true
  · rw [if_pos h1]
    exact ⟨length_takeWhile_le _ _, rfl⟩
  rw [if_neg h1]
  by_cases h2 : (c.isDigit || (c = '-' && ((rest.head?.map Char.isDigit).getD false))) = true
  · rw [if_pos h2]
    exact ⟨length_takeWhile_le _ _, rfl⟩
  rw [if_neg h2]
  by_cases h3 : c = quoteCh
  · rw [if_pos h3]
    cases hdrop : rest.dropWhile (fun d => d != quoteCh) with
    | nil => exact ⟨length_takeWhile_le _ _, rfl⟩
    | cons d ds =>
      refine ⟨?_, rfl⟩
      have hsplit := List.takeWhile_append_dropWhile (fun d => d != quoteCh) rest
      rw [hdrop] at hsplit
      have hlen := congrArg List.length hsplit
      simp only [List.length_append, List.length_cons] at hlen
      simp only []
      omega
  rw [if_neg h3]
  by_cases h4 : c = '.'
  · rw [if_pos h4]; exact ⟨Nat.zero_le _, rfl⟩
  rw [if_neg h4]
  by_cases h5 : c = '('
  · rw [if_pos h5]; exact ⟨Nat.zero_le _, rfl⟩
  rw [if_neg h5]
  by_cases h6 : c = ')'
  · rw [if_pos h6]; exact ⟨Nat.zero_le _, rfl⟩
  rw [if_neg h6]
  by_cases h7 : c = '['
  · rw [if_pos h7]; exact ⟨Nat.zero_le _, rfl⟩
  rw [if_neg h7]
  by_cases h8 : c = ']'
  · rw [if_pos h8]; exact ⟨Nat.zero_le _, rfl⟩
  rw [if_neg h8]
  by_cases h9 : c = ','
  · rw [if_pos h9]; exact ⟨Nat.zero_le _, rfl⟩
  rw [if_neg h9]
  by_cases h10 : (c = '<' || c = '>') = true
  · rw [if_pos h10]
    cases rest with
    | nil => exact ⟨Nat.zero_le _, rfl⟩
    | cons d ds =>
      by_cases hd : d = '='
      · subst hd
        exact ⟨by simp, rfl⟩
      · have : (match d :: ds with
            | '=' :: _ => (⟨TokenKind.compareOp, [c, '='], pos⟩, 1)
            | _ => ((⟨TokenKind.compareOp, [c], pos⟩ : Token), 0)) =
            ((⟨TokenKind.compareOp, [c], pos⟩ : Token), 0) := by
          split
          · rename_i heq
            injection heq with hh1 hh2
            exact absurd hh1 hd
          · rfl
        rw [this]
        exact ⟨Nat.zero_le _, rfl⟩
  rw [if_neg h10]
  by_cases h11 : (c = '=' || c = '!') = true
  · rw [if_pos h11]
    cases rest with
    | nil => exact ⟨Nat.zero_le _, rfl⟩
    | cons d ds =>
      by_cases hd : d = '='
      · subst hd
        exact ⟨by simp, rfl⟩
      · have : (match d :: ds with
            | '=' :: _ => (⟨TokenKind.compareOp, [c, '='], pos⟩, 1)
            | _ => ((⟨TokenKind.invalid, [c], pos⟩ : Token), 0)) =
            ((⟨TokenKind.invalid, [c], pos⟩ : Token), 0) := by
          split
          · rename_i heq
            injection heq with hh1 hh2
            exact absurd hh1 hd
          · rfl
        rw [this]
        exact ⟨Nat.zero_le _, rfl⟩
  rw [if_neg h11]
  exact ⟨Nat.zero_le _, rfl⟩

/-- The scanner's extra consumption never exceeds the remaining input. -/
theorem scanTok_le (pos : Nat) (c : Char) (rest : List Char) :
    (scanTok pos c rest).2 ≤ rest.length := (scanTok_spec pos c rest).1

/-- The scanned token carries the position it was scanned at. -/
theorem scanTok_fst_pos (pos : Nat) (c : Char) (rest : List Char) :
    (scanTok pos c rest).1.pos = pos := (scanTok_spec pos c rest).2

/-- Every token produced by the lexer carries a position bounded by the start
position plus the remaining input length. -/
theorem lexAux_pos_le : ∀ fuel pos cs, ∀ t ∈ lexAux fuel pos cs,
    t.pos ≤ pos + cs.length := by
  intro fuel
  induction fuel with
  | zero =>
    intro pos cs t ht
    simp only [lexAux, List.mem_singleton] at ht
    subst ht
    simp
  | succ fuel ih =>
    intro pos cs t ht
    cases cs with
    | nil =>
      simp only [lexAux, List.mem_singleton] at ht
      subst ht
      simp
    | cons c rest =>
      simp only [lexAux] at ht
      split at ht
      · have := ih (pos + 1) rest t ht
        simp only [List.length_cons]
        omega
      · rcases List.mem_cons.mp ht with rfl | hmem
        · rw [scanTok_fst_pos]
          simp
        · have hk := scanTok_le pos c rest
          have hb := ih (pos + 1 + (scanTok pos c rest).2) (rest.drop (scanTok pos c rest).2) _ hmem
          simp only [List.length_drop] at hb
          simp only [List.length_cons]
          omega

/-- Every token of `tokenize cs` has a position within `[0, cs.length]`. -/
theorem tokenize_pos_le (cs : List Char) : ∀ t ∈ tokenize cs, t.pos ≤ cs.length := by
  intro t ht
  simpa using lexAux_pos_le (cs.length + 1) 0 cs t ht

/-- Modelled from the spec: literal values (§3). -/
inductive Literal where
  | num : List Char → Literal
  | strVal : List Char → Literal
  | boolVal : Bool → Literal
  | list : List Literal → Literal

/-- Modelled from the spec: a `where` attribute comparison (§3). -/
structure WhereClause where
  attr : List Char
  op : List Char
  value : Literal

/-- Modelled from the spec: the expressions of the parser refactored by
`refactor-parser.py` — `trace.has(name)[.where(...)]` and
`trace.count(pattern) op N`. -/
inductive TraceExpr where
  | hasExpr : List Char → Option WhereClause → TraceExpr
  | countExpr : List Char → List Char → List Char → TraceExpr

/-- Modelled from the spec: `lexer.next()` — the next token, or an end-of-input
token positioned at the input length when the stream is exhausted. -/
def nextTok (inp : List Char) : List Token → Token × List Token
  | [] => (⟨TokenKind.eof, [], inp.length⟩, [])
  | t :: ts => (t, ts)

mutual

/-- Modelled from the spec: `parseValue` (§4.2) — number, string, boolean, or
a bracketed list of values; any other token kind is INVALID_VALUE with the
hint fixed by the refactor script. Fuel keeps the list recursion structural;
called with more fuel than tokens remain. -/
def parseValue : Nat → List Char → List Token → Except ParseError (Literal × List Token)
  | 0, inp, toks =>
    let (t, _) := nextTok inp toks
    .error ⟨"Unexpected value type: ".data ++ t.text, inp, t.pos,
      ErrorType.INVALID_VALUE, some "Expected number, string, boolean, or list".data⟩
  | fuel + 1, inp, toks =>
    let (t, ts) := nextTok inp toks
    match t.kind with
    | TokenKind.number => .ok (Literal.num t.text, ts)
    | TokenKind.strLit => .ok (Literal.strVal t.text, ts)
    | TokenKind.boolLit => .ok (Literal.boolVal (t.text = "true".data), ts)
    | TokenKind.listOpen => parseListElems fuel inp ts []
    | _ => .error ⟨"Unexpected value type: ".data ++ t.text, inp, t.pos,
        ErrorType.INVALID_VALUE, some "Expected number, string, boolean, or list".data⟩

/-- Modelled from the spec: the elements of a `[ ... ]` list value, separated
by commas and closed by `]`. -/
def parseListElems : Nat → List Char → List Token → List Literal →
    Except ParseError (Literal × List Token)
  | 0, inp, toks, _ =>
    let (t, _) := nextTok inp toks
    .error ⟨"Unexpected value type: ".data ++ t.text, inp, t.pos,
      ErrorType.INVALID_VALUE, some "Expected number, string, boolean, or list".data⟩
  | fuel + 1, inp, toks, acc =>
    match parseValue fuel inp toks with
    | .error e => .error e
    | .ok (v, ts) =>
      let (t2, ts2) := nextTok inp ts
      match t2.kind with
      | TokenKind.comma => parseListElems fuel inp ts2 (acc ++ [v])
      | TokenKind.listClose => .ok (Literal.list (acc ++ [v]), ts2)
      | _ => .error (ParseError.missingToken inp t2.pos
          "\x27]\x27 after list values".data)

end

/-- Modelled from the spec: `parseWhereClause` (§4.2), with the error sites of
the refactor script — missing `(` after `where`, unexpected attribute name,
INVALID_OPERATOR on a non-comparison token, missing `)` after the clause. -/
def parseWhere (inp : List Char) (toks : List Token) :
    Except ParseError (WhereClause × List Token) :=
  let (t1, ts1) := nextTok inp toks
  if t1.kind ≠ TokenKind.lparen then
    .error (ParseError.missingToken inp t1.pos "\x27(\x27 after \x27where\x27".data)
  else
    let (t2, ts2) := nextTok inp ts1
    if ¬ (t2.kind = TokenKind.ident ∨ t2.kind = TokenKind.keyword) then
      .error (ParseError.unexpectedToken inp t2.pos "attribute name".data t2.text)
    else
      let (t3, ts3) := nextTok inp ts2
      if t3.kind ≠ TokenKind.compareOp then
        .error (ParseError.invalidOperator inp t3.pos t3.text)
      else
        match parseValue (ts3.length + 1) inp ts3 with
        | .error e => .error e
        | .ok (v, ts4) =>
          let (t5, ts5) := nextTok inp ts4
          if t5.kind ≠ TokenKind.rparen then
            .error (ParseError.missingToken inp t5.pos "\x27)\x27 after where clause".data)
          else .ok (⟨t2.text, t3.text, v⟩, ts5)

/-- Modelled from the spec: `parseSpanMatch`'s `has` arm — `( name )` with an
optional `.where(...)`, with the refactor script's error sites. -/
def parseHas (inp : List Char) (toks : List Token) :
    Except ParseError (TraceExpr × List Token) :=
  let (t1, ts1) := nextTok inp toks
  if t1.kind ≠ TokenKind.lparen then
    .error (ParseError.missingToken inp t1.pos "\x27(\x27 after \x27has\x27".data)
  else
    let (t2, ts2) := nextTok inp ts1
    if ¬ (t2.kind = TokenKind.ident ∨ t2.kind = TokenKind.keyword) then
      .error (ParseError.unexpectedToken inp t2.pos "operation name".data t2.text)
    else
      let (t3, ts3) := nextTok inp ts2
      if t3.kind ≠ TokenKind.rparen then
        .error (ParseError.missingToken inp t3.pos "\x27)\x27 after operation name".data)
      else
        match ts3 with
        | t4 :: ts4 =>
          if t4.kind = TokenKind.dot then
            let (t5, ts5) := nextTok inp ts4
            if ¬ (t5.kind = TokenKind.keyword ∧ t5.text = "where".data) then
              .error (ParseError.unexpectedToken inp t5.pos "\x27where\x27".data t5.text)
            else
              match parseWhere inp ts5 with
              | .error e => .error e
              | .ok (w, ts6) => .ok (TraceExpr.hasExpr t2.text (some w), ts6)
          else .ok (TraceExpr.hasExpr t2.text none, ts3)
        | [] => .ok (TraceExpr.hasExpr t2.text none, ts3)

/-- Modelled from the spec: `parseCountExpression` (§4.2) — `( pattern )`
comparison-operator number, with the refactor script's error sites. -/
def parseCount (inp : List Char) (toks : List Token) :
    Except ParseError (TraceExpr × List Token) :=
  let (t1, ts1) := nextTok inp toks
  if t1.kind ≠ TokenKind.lparen then
    .error (ParseError.missingToken inp t1.pos "\x27(\x27 after \x27count\x27".data)
  else
    let (t2, ts2) := nextTok inp ts1
    if ¬ (t2.kind = TokenKind.ident ∨ t2.kind = TokenKind.keyword) then
      .error (ParseError.unexpectedToken inp t2.pos "pattern".data t2.text)
    else
      let (t3, ts3) := nextTok inp ts2
      if t3.kind ≠ TokenKind.rparen then
        .error (ParseError.missingToken inp t3.pos "\x27)\x27 after pattern".data)
      else
        let (t4, ts4) := nextTok inp ts3
        if t4.kind ≠ TokenKind.compareOp then
          .error (ParseError.invalidOperator inp t4.pos t4.text)
        else
          let (t5, ts5) := nextTok inp ts4
          if t5.kind ≠ TokenKind.number then
            .error (ParseError.unexpectedToken inp t5.pos "number".data t5.text)
          else .ok (TraceExpr.countExpr t2.text t4.text t5.text, ts5)

/-- Modelled from the spec: the top expression production — `trace` `.`
function-name, dispatching to `has`/`count`, with the Unknown-function
INVALID_IDENTIFIER site of the refactor script. -/
def parseExpression (inp : List Char) (toks : List Token) :
    Except ParseError (TraceExpr × List Token) :=
  let (t1, ts1) := nextTok inp toks
  if t1.text ≠ "trace".data then
    .error (ParseError.unexpectedToken inp t1.pos "\x27trace\x27".data t1.text)
  else
    let (t2, ts2) := nextTok inp ts1
    if t2.kind ≠ TokenKind.dot then
      .error (ParseError.missingToken inp t2.pos "\x27.\x27 after \x27trace\x27".data)
    else
      let (t3, ts3) := nextTok inp ts2
      if ¬ (t3.kind = TokenKind.ident ∨ t3.kind = TokenKind.keyword) then
        .error (ParseError.unexpectedToken inp t3.pos "function name (has/count)".data t3.text)
      else if t3.text = "has".data then parseHas inp ts3
      else if t3.text = "count".data then parseCount inp ts3
      else .error ⟨"Unknown function: ".data ++ t3.text, inp, t3.pos,
        ErrorType.INVALID_IDENTIFIER, some "Valid functions are: has, count".data⟩

/-- Modelled from the spec: `parse(dsl)` — empty (after trimming) input raises
UNEXPECTED_END on the untrimmed input, exactly as the refactor script's
`parse()` replacement does; otherwise the trimmed input is lexed and the
expression production is run. -/
def parse (dsl : String) : Except ParseError TraceExpr :=
  let trimmed := pyStrip dsl.data
  if trimmed.isEmpty then .error (ParseError.unexpectedEnd dsl.data)
  else
    match parseExpression trimmed (tokenize trimmed) with
    | .error e => .error e
    | .ok (ast, _) => .ok ast

/-- All tokens of a list have positions bounded by `n`. -/
def toksLE (n : Nat) (toks : List Token) : Prop := ∀ t ∈ toks, t.pos ≤ n

/-- The token delivered by `nextTok` has a bounded position (the end-of-input
default is positioned at the input length itself). -/
theorem nextTok_fst_le {inp : List Char} {toks : List Token}
    (h : toksLE inp.length toks) : (nextTok inp toks).1.pos ≤ inp.length := by
  cases toks with
  | nil => simp [nextTok]
  | cons t ts => exact h t (by simp)

/-- The tokens remaining after `nextTok` are still bounded. -/
theorem nextTok_snd_le {inp : List Char} {toks : List Token}
    (h : toksLE inp.length toks) : toksLE inp.length (nextTok inp toks).2 := by
  cases toks with
  | nil => intro t ht; simp [nextTok] at ht
  | cons t ts => exact fun u hu => h u (List.mem_cons_of_mem t hu)

/-- The parser-state invariant: an error carries the parsed input and a
position within it; a success leaves only bounded tokens. -/
def ExceptInv {α : Type} (inp : List Char) :
    Except ParseError (α × List Token) → Prop
  | .error e => e.input = inp ∧ e.position ≤ inp.length
  | .ok (_, ts) => toksLE inp.length ts

/-- Invariant of `parseValue` and `parseListElems`: from bounded tokens, every
raised ParseError carries the input and a position within it. -/
theorem parseValue_inv : ∀ fuel : Nat,
    (∀ (inp : List Char) (toks : List Token), toksLE inp.length toks →
      ExceptInv inp (parseValue fuel inp toks)) ∧
    (∀ (inp : List Char) (toks : List Token) (acc : List Literal),
      toksLE inp.length toks → ExceptInv inp (parseListElems fuel inp toks acc)) := by
  intro fuel
  induction fuel with
  | zero =>
    constructor
    · intro inp toks hb
      exact ⟨rfl, nextTok_fst_le hb⟩
    · intro inp toks acc hb
      exact ⟨rfl, nextTok_fst_le hb⟩
  | succ fuel ih =>
    obtain ⟨ihV, ihL⟩ := ih
    constructor
    · intro inp toks hb
      have hfst := nextTok_fst_le hb
      have hsnd := nextTok_snd_le hb
      simp only [parseValue]
      split
      · exact hsnd
      · exact hsnd
      · exact hsnd
      · exact ihL inp _ [] hsnd
      · exact ⟨rfl, hfst⟩
    · intro inp toks acc hb
      simp only [parseListElems]
      split
      · rename_i e he
        have hthis := ihV inp toks hb
        rw [he] at hthis
        exact hthis
      · rename_i v ts hok
        have hts : toksLE inp.length ts := by
          have := ihV inp toks hb
          rw [hok] at this
          exact this
        have hfst2 := nextTok_fst_le hts
        have hsnd2 := nextTok_snd_le hts
        split
        · exact ihL inp _ _ hsnd2
        · exact hsnd2
        · exact ⟨rfl, hfst2⟩

/-- Invariant of `parseWhere`. -/
theorem parseWhere_inv (inp : List Char) (toks : List Token)
    (hb : toksLE inp.length toks) : ExceptInv inp (parseWhere inp toks) := by
  have h1 := nextTok_fst_le hb
  have h1s := nextTok_snd_le hb
  have h2 := nextTok_fst_le h1s
  have h2s := nextTok_snd_le h1s
  have h3 := nextTok_fst_le h2s
  have h3s := nextTok_snd_le h2s
  have hval := (parseValue_inv
      ((nextTok inp (nextTok inp (nextTok inp toks).2).2).2.length + 1)).1 inp
    (nextTok inp (nextTok inp (nextTok inp toks).2).2).2 h3s
  simp only [parseWhere]
  split
  · exact ⟨rfl, h1⟩
  split
  · exact ⟨rfl, h2⟩
  split
  · exact ⟨rfl, h3⟩
  split
  · rename_i e he
    rw [he] at hval
    exact hval
  · rename_i v ts4 hok
    have hts4 : toksLE inp.length ts4 := by
      rw [hok] at hval
      exact hval
    have h5 := nextTok_fst_le hts4
    have h5s := nextTok_snd_le hts4
    split
    · exact ⟨rfl, h5⟩
    · exact h5s

/-- Invariant of `parseHas`. -/
theorem parseHas_inv (inp : List Char) (toks : List Token)
    (hb : toksLE inp.length toks) : ExceptInv inp (parseHas inp toks) := by
  have h1 := nextTok_fst_le hb
  have h1s := nextTok_snd_le hb
  have h2 := nextTok_fst_le h1s
  have h2s := nextTok_snd_le h1s
  have h3 := nextTok_fst_le h2s
  have h3s := nextTok_snd_le h2s
  simp only [parseHas]
  split
  · exact ⟨rfl, h1⟩
  split
  · exact ⟨rfl, h2⟩
  split
  · exact ⟨rfl, h3⟩
  split
  · rename_i t4 ts4 heq
    have hts4 : toksLE inp.length (t4 :: ts4) := by rw [← heq]; exact h3s
    have ht4s : toksLE inp.length ts4 := fun u hu => hts4 u (List.mem_cons_of_mem _ hu)
    have h5 := nextTok_fst_le ht4s
    have h5s := nextTok_snd_le ht4s
    split
    · split
      · exact ⟨rfl, h5⟩
      · split
        · rename_i e he
          have hthis := parseWhere_inv inp (nextTok inp ts4).2 h5s
          rw [he] at hthis
          exact hthis
        · rename_i w ts6 hok
          have hthis := parseWhere_inv inp (nextTok inp ts4).2 h5s
          rw [hok] at hthis
          exact hthis
    · exact h3s
  · exact h3s

/-- Invariant of `parseCount`. -/
theorem parseCount_inv (inp : List Char) (toks : List Token)
    (hb : toksLE inp.length toks) : ExceptInv inp (parseCount inp toks) := by
  have h1 := nextTok_fst_le hb
  have h1s := nextTok_snd_le hb
  have h2 := nextTok_fst_le h1s
  have h2s := nextTok_snd_le h1s
  have h3 := nextTok_fst_le h2s
  have h3s := nextTok_snd_le h2s
  have h4 := nextTok_fst_le h3s
  have h4s := nextTok_snd_le h3s
  have h5 := nextTok_fst_le h4s
  have h5s := nextTok_snd_le h4s
  simp only [parseCount]
  split
  · exact ⟨rfl, h1⟩
  split
  · exact ⟨rfl, h2⟩
  split
  · exact ⟨rfl, h3⟩
  split
  · exact ⟨rfl, h4⟩
  split
  · exact ⟨rfl, h5⟩
  · exact h5s

/-- Invariant of `parseExpression`. -/
theorem parseExpression_inv (inp : List Char) (toks : List Token)
    (hb : toksLE inp.length toks) : ExceptInv inp (parseExpression inp toks) := by
  have h1 := nextTok_fst_le hb
  have h1s := nextTok_snd_le hb
  have h2 := nextTok_fst_le h1s
  have h2s := nextTok_snd_le h1s
  have h3 := nextTok_fst_le h2s
  have h3s := nextTok_snd_le h2s
  simp only [parseExpression]
  split
  · exact ⟨rfl, h1⟩
  split
  · exact ⟨rfl, h2⟩
  split
  · exact ⟨rfl, h3⟩
  split
  · exact parseHas_inv inp _ h3s
  split
  · exact parseCount_inv inp _ h3s
  · exact ⟨rfl, h3⟩

/-- C9: every ParseError produced by the parser carries a position valid
within the input it stores (the input being parsed): 0 ≤ position ≤
length(input). -/
theorem parse_error_position_valid (dsl : String) (e : ParseError)
    (h : parse dsl = .error e) :
    0 ≤ e.position ∧ e.position ≤ e.input.length := by
  refine ⟨Nat.zero_le _, ?_⟩
  simp only [parse] at h
  split at h
  · injection h with he
    subst he
    simp [ParseError.unexpectedEnd]
  · split at h
    · rename_i e2 he2
      injection h with he
      subst he
      have hb : toksLE (pyStrip dsl.data).length (tokenize (pyStrip dsl.data)) :=
        fun t ht => tokenize_pos_le _ t ht
      have hthis := parseExpression_inv (pyStrip dsl.data) _ hb
      rw [he2] at hthis
      obtain ⟨hi, hp⟩ := hthis
      rw [hi]
      exact hp
    · exact Except.noConfusion h

/-- The concrete ParseError raised on the unterminated input `trace.has(A`. -/
def unterminatedHasErr : ParseError :=
  ⟨"Missing ".data ++ "\x27)\x27 after operation name".data, "trace.has(A".data, 11,
    ErrorType.MISSING_TOKEN, none⟩

/-- Witness for C9 at the unterminated input `trace.has(A`. -/
theorem parse_error_position_valid_witness :
    0 ≤ unterminatedHasErr.position ∧
      unterminatedHasErr.position ≤ unterminatedHasErr.input.length :=
  parse_error_position_valid "trace.has(A" unterminatedHasErr (by rfl)

example : convert_condition "trace.has(A).where(x==1) and not trace.has(B)" =
    "when \x7b A.where(x==1) \x7d never \x7b B \x7d" := by decide
example : convert_condition "trace.count(X) > 5" =
    "# TODO: Add always/never clause (e.g., always \x7b alert \x7d)\nwhen \x7b count(X) > 5 \x7d" := by decide
example : convert_condition "trace.has(A) and trace.has(B) and not trace.has(C)" =
    "when \x7b A \x7d always \x7b B \x7d" := by decide
example : convert_condition "trace.has(A).where(x in [1,2]) and trace.has(B)" =
    "when \x7b A.where(x in [1,2]) \x7d always \x7b B \x7d" := by decide
example : convert_condition "trace.has(A) and trace.has(B) and trace.has(C).where(x==1)" =
    "when \x7b A and B \x7d always \x7b C.where(x==1) \x7d" := by decide
example : convert_condition "  hello  " =
    "# TODO: Manual conversion required\n# Original: hello" := by decide
example : convert_condition "trace.has(X).where(a in [1])" =
    "# TODO: Add always/never clause\nwhen \x7b X.where(a in [1]) \x7d" := by decide
